import Mathlib

/-!
Verification of the DREP-Chain chain core against its specification.

Each component of the Go source is shallowly embedded as executable Lean
definitions; Go maps become association lists or total functions, Go
`big.Int` / `uint64` / `int64` values become `Nat` / `Int`, byte strings
become `List Nat`.  Struct literals that omit a field get that field's Go
zero value, exactly as the Go compiler fills them in.
-/

/-- Association-list lookup: first entry whose key matches. -/
def alookup {K V : Type} [DecidableEq K] (k : K) : List (K × V) → Option V
  | [] => none
  | (k', v) :: rest => if k' = k then some v else alookup k rest

/-- Association-list update in place, appending when the key is absent
(models Go `m[k] = v`). -/
def aupdate {K V : Type} [DecidableEq K] (k : K) (v : V) : List (K × V) → List (K × V)
  | [] => [(k, v)]
  | (k', v') :: rest => if k' = k then (k, v) :: rest else (k', v') :: aupdate k v rest

/-- Association-list erase (models Go `delete(m, k)`). -/
def aerase {K V : Type} [DecidableEq K] (k : K) : List (K × V) → List (K × V)
  | [] => []
  | (k', v') :: rest => if k' = k then aerase k rest else (k', v') :: aerase k rest

namespace Database

/-! ## database/db.go: KV store transactions (`Transaction.Put/Get/Delete/Commit/Discard`) -/

abbrev Key := List Nat

abbrev Val := List Nat

/-- Journal actions, `const (del = iota; put)` in db.go. -/
inductive Action where
  | del : Action
  | put : Action
deriving DecidableEq, Repr

/-- The `journal` struct of db.go: `{chainId int64; action int; key, value []byte}`. -/
structure Journal where
  chainId : Int
  action : Action
  key : Key
  value : Val
deriving DecidableEq, Repr

/-- An in-memory state trie, as a key-to-value map (`trie.StateTrie` holds a
keyed map; its Merkle structure is irrelevant to the transaction layer). -/
abbrev Trie := Key → Option Val

/-- The `Database.tries` field: one trie per chain id.  A missing entry of the
Go map is created as an empty trie on first touch, so a total function with
empty default is the same thing. -/
abbrev Tries := Int → Trie

def trieInsert (k : Key) (v : Val) (t : Trie) : Trie :=
  fun k' => if k' = k then some v else t k'

def trieDelete (k : Key) (t : Trie) : Trie :=
  fun k' => if k' = k then none else t k'

def triesUpdate (c : Int) (f : Trie → Trie) (ts : Tries) : Tries :=
  fun c' => if c' = c then f (ts c) else ts c'

/-- The `Transaction` struct, together with the parts of the owning `Database`
it mutates (`tries`) and the durable leveldb contents (`durable`).  The
`snapshot` field is the leveldb snapshot captured by `BeginTransaction`. -/
structure Txn where
  finished : Bool
  journals : List Journal
  values : Key → Option Val
  tries : Tries
  snapshot : Key → Option Val
  durable : Key → Option Val

/-- `Transaction.Put`.  Note: the Go source appends
`&journal{action:put, key:key, value:value}` — the `chainId` field is left at
its zero value `0`, whatever `chainId` the caller passed. -/
def Txn.Put (t : Txn) (key : Key) (value : Val) (chainId : Int) : Txn :=
  if t.finished then t else
  { t with
    journals := t.journals ++ [{ chainId := 0, action := .put, key := key, value := value }]
    values := fun k => if k = key then some value else t.values k
    tries := triesUpdate chainId (trieInsert key value) t.tries }

/-- `Transaction.Get`: own writes first, then the snapshot. -/
def Txn.Get (t : Txn) (key : Key) : Option Val :=
  if t.finished then none else
  match t.values key with
  | some v => some v
  | none => t.snapshot key

/-- `Transaction.Delete`.  As in `Put`, the journal entry's `chainId` field is
left at the Go zero value `0`. -/
def Txn.Delete (t : Txn) (key : Key) (chainId : Int) : Txn :=
  if t.finished then t else
  { t with
    journals := t.journals ++ [{ chainId := 0, action := .del, key := key, value := [] }]
    tries := triesUpdate chainId (trieDelete key) t.tries
    values := fun k => if k = key then none else t.values k }

/-- One step of `Transaction.Commit`'s loop, applied to the durable store. -/
def commitStep (store : Key → Option Val) (j : Journal) : Key → Option Val :=
  match j.action with
  | .del => fun k => if k = j.key then none else store k
  | .put => fun k => if k = j.key then some j.value else store k

/-- `Transaction.Commit`: flush the journal entries, in the order they were
written, into the durable store. -/
def Txn.Commit (t : Txn) : Txn :=
  if t.finished then t else
  { t with finished := true, durable := t.journals.foldl commitStep t.durable }

/-- One step of `Transaction.Discard`'s loop: restore the entry's key from the
snapshot into the trie selected by the entry's `chainId` field.  For a `del`
entry whose key is absent from the snapshot the loop body does nothing. -/
def discardStep (snapshot : Key → Option Val) (tries : Tries) (j : Journal) : Tries :=
  match j.action with
  | .del =>
    match snapshot j.key with
    | some v => triesUpdate j.chainId (trieInsert j.key v) tries
    | none => tries
  | .put =>
    match snapshot j.key with
    | some v => triesUpdate j.chainId (trieInsert j.key v) tries
    | none => triesUpdate j.chainId (trieDelete j.key) tries

/-- `Transaction.Discard`: walk the journal front to back, restoring keys from
the snapshot. -/
def Txn.Discard (t : Txn) : Txn :=
  if t.finished then t else
  { t with finished := true, tries := t.journals.foldl (discardStep t.snapshot) t.tries }

/-- The owning `Database`: its tries and the durable leveldb contents. -/
structure Db where
  tries : Tries
  stored : Key → Option Val

/-- `Database.BeginTransaction`: fresh transaction over a leveldb snapshot. -/
def Db.BeginTransaction (db : Db) : Txn :=
  { finished := false
    journals := []
    values := fun _ => none
    tries := db.tries
    snapshot := db.stored
    durable := db.stored }

/-- A client-visible write operation issued against an open transaction. -/
inductive DbOp where
  | put (key : Key) (value : Val) (chainId : Int) : DbOp
  | del (key : Key) (chainId : Int) : DbOp
deriving DecidableEq, Repr

def DbOp.key : DbOp → Key
  | .put k _ _ => k
  | .del k _ => k

def DbOp.chain : DbOp → Int
  | .put _ _ c => c
  | .del _ c => c

def applyOp (t : Txn) : DbOp → Txn
  | .put k v c => t.Put k v c
  | .del k c => t.Delete k c

def runOps (t : Txn) : List DbOp → Txn
  | [] => t
  | op :: rest => runOps (applyOp t op) rest

/-- The journal entry each operation records (chainId always 0, see
`Txn.Put` / `Txn.Delete`). -/
def opJournal : DbOp → Journal
  | .put k v _ => { chainId := 0, action := .put, key := k, value := v }
  | .del k _ => { chainId := 0, action := .del, key := k, value := [] }

/-- Direct sequential application of the operations to a durable store,
in the order they were issued. -/
def applyOpStore (s : Key → Option Val) : DbOp → Key → Option Val
  | .put k v _ => fun k' => if k' = k then some v else s k'
  | .del k _ => fun k' => if k' = k then none else s k'

def applyOpsStore (s : Key → Option Val) : List DbOp → Key → Option Val
  | [] => s
  | op :: rest => applyOpsStore (applyOpStore s op) rest

def DbOp.isPut : DbOp → Bool
  | .put _ _ _ => true
  | .del _ _ => false

theorem triesUpdate_point_insert (c : Int) (kk : Key) (v : Val) (ts : Tries)
    (c' : Int) (k : Key) (h : k ≠ kk) :
    triesUpdate c (trieInsert kk v) ts c' k = ts c' k := by
  unfold triesUpdate
  split
  · next hc => subst hc; simp [trieInsert, h]
  · rfl

theorem triesUpdate_point_delete (c : Int) (kk : Key) (ts : Tries)
    (c' : Int) (k : Key) (h : k ≠ kk) :
    triesUpdate c (trieDelete kk) ts c' k = ts c' k := by
  unfold triesUpdate
  split
  · next hc => subst hc; simp [trieDelete, h]
  · rfl

theorem discardStep_other_key (snap : Key → Option Val) (ts : Tries) (j : Journal)
    (c : Int) (k : Key) (h : k ≠ j.key) :
    discardStep snap ts j c k = ts c k := by
  rcases j with ⟨jc, ja, jk, jv⟩
  simp only [Journal.key] at h
  cases ja <;> cases hs : snap jk <;>
    simp [discardStep, hs, triesUpdate_point_insert, triesUpdate_point_delete, h]

theorem discardStep_other_chain (snap : Key → Option Val) (ts : Tries) (j : Journal)
    (c : Int) (k : Key) (h : c ≠ j.chainId) :
    discardStep snap ts j c k = ts c k := by
  rcases j with ⟨jc, ja, jk, jv⟩
  simp only [Journal.chainId] at h
  cases ja <;> cases hs : snap jk <;>
    simp [discardStep, hs, triesUpdate, h]

theorem discardStep_hit_some (snap : Key → Option Val) (ts : Tries) (j : Journal)
    (k : Key) (v : Val) (hk : j.key = k) (hc : j.chainId = 0) (hs : snap k = some v) :
    discardStep snap ts j 0 k = some v := by
  rcases j with ⟨jc, ja, jk, jv⟩
  simp only [Journal.key] at hk
  simp only [Journal.chainId] at hc
  subst hk; subst hc
  cases ja <;> simp [discardStep, hs, triesUpdate, trieInsert]

theorem discardStep_hit_put_none (snap : Key → Option Val) (ts : Tries) (j : Journal)
    (k : Key) (hk : j.key = k) (hc : j.chainId = 0) (ha : j.action = .put)
    (hs : snap k = none) :
    discardStep snap ts j 0 k = none := by
  rcases j with ⟨jc, ja, jk, jv⟩
  simp only [Journal.key] at hk
  simp only [Journal.chainId] at hc
  simp only [Journal.action] at ha
  subst hk; subst hc; subst ha
  simp [discardStep, hs, triesUpdate, trieDelete]

theorem discardStep_del_none (snap : Key → Option Val) (ts : Tries) (j : Journal)
    (ha : j.action = .del) (hs : snap j.key = none) :
    discardStep snap ts j = ts := by
  rcases j with ⟨jc, ja, jk, jv⟩
  simp only [Journal.action] at ha
  simp only [Journal.key] at hs
  subst ha
  simp [discardStep, hs]

theorem discardFold_frame (snap : Key → Option Val) (js : List Journal) (ts : Tries)
    (c : Int) (k : Key) (h : ∀ j ∈ js, k ≠ j.key) :
    (js.foldl (discardStep snap) ts) c k = ts c k := by
  induction js generalizing ts with
  | nil => rfl
  | cons j rest ih =>
    rw [List.foldl_cons, ih _ (fun j' hj' => h j' (List.mem_cons_of_mem _ hj'))]
    exact discardStep_other_key snap ts j c k (h j (List.mem_cons_self _ _))

theorem discardFold_other_chain (snap : Key → Option Val) (js : List Journal)
    (ts : Tries) (c : Int) (k : Key) (hc : c ≠ 0)
    (hall : ∀ j ∈ js, j.chainId = 0) :
    (js.foldl (discardStep snap) ts) c k = ts c k := by
  induction js generalizing ts with
  | nil => rfl
  | cons j rest ih =>
    rw [List.foldl_cons, ih _ (fun j' hj' => hall j' (List.mem_cons_of_mem _ hj'))]
    exact discardStep_other_chain snap ts j c k
      (by rw [hall j (List.mem_cons_self _ _)]; exact hc)

theorem discardFold_mem_some (snap : Key → Option Val) (js : List Journal)
    (ts : Tries) (k : Key) (v : Val)
    (hall : ∀ j ∈ js, j.chainId = 0)
    (hk : ∃ j ∈ js, j.key = k) (hs : snap k = some v) :
    (js.foldl (discardStep snap) ts) 0 k = some v := by
  induction js generalizing ts with
  | nil => rcases hk with ⟨j, hj, _⟩; cases hj
  | cons j rest ih =>
    rw [List.foldl_cons]
    by_cases hrest : ∃ j' ∈ rest, j'.key = k
    · exact ih _ (fun j' h => hall j' (List.mem_cons_of_mem _ h)) hrest
    · rcases hk with ⟨j0, hj0, hk0⟩
      have hj0j : j0 = j := by
        rcases List.mem_cons.mp hj0 with h | h
        · exact h
        · exact absurd ⟨j0, h, hk0⟩ hrest
      subst hj0j
      rw [discardFold_frame snap rest _ 0 k
        (fun j' hj' he => hrest ⟨j', hj', he.symm⟩)]
      exact discardStep_hit_some snap ts j0 k v hk0 (hall j0 (List.mem_cons_self _ _)) hs

theorem discardFold_none (snap : Key → Option Val) (js : List Journal)
    (ts : Tries) (k : Key)
    (hall : ∀ j ∈ js, j.chainId = 0) (hs : snap k = none)
    (hinit : ts 0 k = none ∨ ∃ j ∈ js, j.key = k ∧ j.action = .put) :
    (js.foldl (discardStep snap) ts) 0 k = none := by
  induction js generalizing ts with
  | nil =>
    rcases hinit with h | ⟨j, hj, _⟩
    · exact h
    · cases hj
  | cons j rest ih =>
    rw [List.foldl_cons]
    apply ih _ (fun j' h => hall j' (List.mem_cons_of_mem _ h))
    by_cases hkey : j.key = k
    · cases ha : j.action with
      | put =>
        left
        exact discardStep_hit_put_none snap ts j k hkey
          (hall j (List.mem_cons_self _ _)) ha hs
      | del =>
        rw [discardStep_del_none snap ts j ha (hkey ▸ hs)]
        rcases hinit with h | ⟨j0, hj0, hk0, hp0⟩
        · exact Or.inl h
        · rcases List.mem_cons.mp hj0 with h | h
          · subst h; rw [ha] at hp0; cases hp0
          · exact Or.inr ⟨j0, h, hk0, hp0⟩
    · have hpt : discardStep snap ts j 0 k = ts 0 k :=
        discardStep_other_key snap ts j 0 k (fun h => hkey h.symm)
      rcases hinit with h | ⟨j0, hj0, hk0, hp0⟩
      · left; rw [hpt]; exact h
      · rcases List.mem_cons.mp hj0 with h | h
        · subst h; exact absurd hk0 hkey
        · exact Or.inr ⟨j0, h, hk0, hp0⟩

theorem applyOp_fields (t : Txn) (op : DbOp) (h : t.finished = false) :
    (applyOp t op).finished = false ∧ (applyOp t op).snapshot = t.snapshot ∧
    (applyOp t op).durable = t.durable ∧
    (applyOp t op).journals = t.journals ++ [opJournal op] := by
  cases op <;> simp [applyOp, Txn.Put, Txn.Delete, h, opJournal]

theorem runOps_fields (t : Txn) (ops : List DbOp) (h : t.finished = false) :
    (runOps t ops).finished = false ∧ (runOps t ops).snapshot = t.snapshot ∧
    (runOps t ops).durable = t.durable ∧
    (runOps t ops).journals = t.journals ++ ops.map opJournal := by
  induction ops generalizing t with
  | nil => simp [runOps, h]
  | cons op rest ih =>
    obtain ⟨h1, h2, h3, h4⟩ := applyOp_fields t op h
    obtain ⟨g1, g2, g3, g4⟩ := ih (applyOp t op) h1
    refine ⟨g1,
      by rw [show runOps t (op :: rest) = runOps (applyOp t op) rest from rfl, g2, h2],
      by rw [show runOps t (op :: rest) = runOps (applyOp t op) rest from rfl, g3, h3], ?_⟩
    rw [show runOps t (op :: rest) = runOps (applyOp t op) rest from rfl, g4, h4]
    simp

theorem applyOp_tries_other (t : Txn) (op : DbOp) (c : Int) (k : Key)
    (h : k ≠ op.key) :
    (applyOp t op).tries c k = t.tries c k := by
  cases op with
  | put kk v cc =>
    simp only [DbOp.key] at h
    simp only [applyOp, Txn.Put]
    split
    · rfl
    · exact triesUpdate_point_insert cc kk v t.tries c k h
  | del kk cc =>
    simp only [DbOp.key] at h
    simp only [applyOp, Txn.Delete]
    split
    · rfl
    · exact triesUpdate_point_delete cc kk t.tries c k h

theorem runOps_tries_frame (t : Txn) (ops : List DbOp) (c : Int) (k : Key)
    (h : ∀ op ∈ ops, k ≠ op.key) :
    (runOps t ops).tries c k = t.tries c k := by
  induction ops generalizing t with
  | nil => rfl
  | cons op rest ih =>
    rw [show runOps t (op :: rest) = runOps (applyOp t op) rest from rfl,
      ih _ (fun o ho => h o (List.mem_cons_of_mem _ ho))]
    exact applyOp_tries_other t op c k (h op (List.mem_cons_self _ _))

theorem runOps_no_put (t : Txn) (ops : List DbOp) (k : Key)
    (hf : t.finished = false)
    (hc : ∀ op ∈ ops, op.chain = 0)
    (hnp : ∀ op ∈ ops, op.key = k → op.isPut = false)
    (hk : ∃ op ∈ ops, op.key = k) :
    (runOps t ops).tries 0 k = none := by
  induction ops generalizing t with
  | nil => rcases hk with ⟨op, hmem, _⟩; cases hmem
  | cons op rest ih =>
    rw [show runOps t (op :: rest) = runOps (applyOp t op) rest from rfl]
    have hfin : (applyOp t op).finished = false := (applyOp_fields t op hf).1
    by_cases hkey : op.key = k
    · have hdel : op.isPut = false := hnp op (List.mem_cons_self _ _) hkey
      have hch : op.chain = 0 := hc op (List.mem_cons_self _ _)
      cases op with
      | put _ _ _ => simp [DbOp.isPut] at hdel
      | del kk cc =>
        simp only [DbOp.key] at hkey
        simp only [DbOp.chain] at hch
        subst hkey; subst hch
        have hstep : (applyOp t (.del kk 0)).tries 0 kk = none := by
          simp [applyOp, Txn.Delete, hf, triesUpdate, trieDelete]
        by_cases hrest : ∃ op' ∈ rest, op'.key = kk
        · exact ih _ hfin (fun o ho => hc o (List.mem_cons_of_mem _ ho))
            (fun o ho => hnp o (List.mem_cons_of_mem _ ho)) hrest
        · rw [runOps_tries_frame _ rest 0 kk
            (fun o ho he => hrest ⟨o, ho, he.symm⟩), hstep]
    · rcases hk with ⟨o, ho, hok⟩
      rcases List.mem_cons.mp ho with h1 | h2
      · exact absurd (h1 ▸ hok) hkey
      · rw [ih _ hfin (fun o' ho' => hc o' (List.mem_cons_of_mem _ ho'))
          (fun o' ho' => hnp o' (List.mem_cons_of_mem _ ho')) ⟨o, h2, hok⟩]

theorem commitFold_map (s : Key → Option Val) (ops : List DbOp) :
    (ops.map opJournal).foldl commitStep s = applyOpsStore s ops := by
  induction ops generalizing s with
  | nil => rfl
  | cons op rest ih =>
    rw [List.map_cons, List.foldl_cons, ih]
    cases op <;> rfl

/-- C1 (amended): `Commit` applies the buffered journal entries to durable
storage in exactly the order in which they were written.  `Discard` walks the
journal in forward order, restoring each touched key from the captured
snapshot — but into the trie selected by the journal entry's `chainId` field,
which `Put` and `Delete` always leave at 0.  Hence after a discard the
chain-0 trie maps every key touched by a chain-0 transaction back to its
snapshot value (or absence), while the tries of every nonzero chain id are
left exactly as the transaction's writes left them, unreverted. -/
theorem claim_C1_amended (db : Db) (ops : List DbOp) (k : Key) (c : Int)
    (hops : ∀ op ∈ ops, op.chain = 0)
    (hk : ∃ op ∈ ops, op.key = k)
    (hc : c ≠ 0) :
    ((runOps (db.BeginTransaction) ops).Discard).tries 0 k = db.stored k ∧
    (∀ k' : Key, ((runOps (db.BeginTransaction) ops).Discard).tries c k'
      = (runOps (db.BeginTransaction) ops).tries c k') ∧
    ((runOps (db.BeginTransaction) ops).Commit).durable = applyOpsStore db.stored ops := by
  obtain ⟨hfin, hsnap, hdur, hjour⟩ :=
    runOps_fields (db.BeginTransaction) ops rfl
  have hsnap' : (runOps (db.BeginTransaction) ops).snapshot = db.stored := hsnap
  have hdur' : (runOps (db.BeginTransaction) ops).durable = db.stored := hdur
  have hjournals : (runOps (db.BeginTransaction) ops).journals = ops.map opJournal := by
    rw [hjour]; rfl
  have hall : ∀ j ∈ ops.map opJournal, j.chainId = 0 := by
    intro j hj
    rcases List.mem_map.mp hj with ⟨op, _, rfl⟩
    cases op <;> rfl
  have hdisc : ((runOps (db.BeginTransaction) ops).Discard).tries
      = (ops.map opJournal).foldl (discardStep db.stored)
          (runOps (db.BeginTransaction) ops).tries := by
    rw [Txn.Discard, hfin]
    simp [hjournals, hsnap']
  refine ⟨?_, ?_, ?_⟩
  · rw [hdisc]
    have hkj : ∃ j ∈ ops.map opJournal, j.key = k := by
      rcases hk with ⟨op, hmem, hop⟩
      exact ⟨opJournal op, List.mem_map_of_mem _ hmem, by cases op <;> simpa [opJournal] using hop⟩
    cases hsk : db.stored k with
    | some v => exact discardFold_mem_some _ _ _ _ _ hall hkj hsk
    | none =>
      apply discardFold_none _ _ _ _ hall hsk
      by_cases hput : ∃ op ∈ ops, op.key = k ∧ op.isPut = true
      · right
        rcases hput with ⟨op, hmem, hok, hip⟩
        refine ⟨opJournal op, List.mem_map_of_mem _ hmem, ?_⟩
        cases op with
        | put _ _ _ => exact ⟨by simpa [opJournal] using hok, rfl⟩
        | del _ _ => cases hip
      · left
        apply runOps_no_put _ _ _ rfl hops _ hk
        intro op hmem hok
        cases hI : op.isPut
        · rfl
        · exact absurd ⟨op, hmem, hok, hI⟩ hput
  · intro k'
    rw [hdisc]
    exact discardFold_other_chain db.stored _ _ c k' hc hall
  · have hcom : ((runOps (db.BeginTransaction) ops).Commit).durable
        = (ops.map opJournal).foldl commitStep db.stored := by
      rw [Txn.Commit, hfin]
      simp [hjournals, hdur']
    rw [hcom]
    exact commitFold_map db.stored ops

/-- A concrete database with empty durable storage and empty tries. -/
def dbEmpty : Db := { tries := fun _ => fun _ => none, stored := fun _ => none }

/-- C1 (counterexample): a single `Put` of key `[0]` with value `[1]` issued
on chain id 1 and then discarded leaves the chain-1 trie still mapping `[0]`
to `[1]`, although the snapshot holds no value for `[0]`: discard does not
map every key back to its snapshot value, because the journal entry recorded
chain id 0 instead of 1. -/
theorem claim_C1_counterexample :
    (((dbEmpty.BeginTransaction).Put [0] [1] 1).Discard).tries 1 [0] = some [1] ∧
    dbEmpty.stored [0] = none ∧
    (((dbEmpty.BeginTransaction).Put [0] [1] 1).Discard).tries 1 [0]
      ≠ dbEmpty.stored [0] := by
  refine ⟨by decide, rfl, by decide⟩

/-- A concrete database whose durable store holds key `[2]`. -/
def dbW : Db :=
  { tries := fun _ => fun _ => none
    stored := fun k => if k = [2] then some [9] else none }

/-- The concrete chain-0 operations used to witness `claim_C1_amended`. -/
def opsW : List DbOp := [.put [2] [5] 0, .del [3] 0]

/-- C1 (witness): `claim_C1_amended` instantiated at a put-then-delete
transaction on chain 0. -/
theorem claim_C1_witness :
    ((runOps (dbW.BeginTransaction) opsW).Discard).tries 0 [2] = dbW.stored [2] ∧
    (∀ k' : Key, ((runOps (dbW.BeginTransaction) opsW).Discard).tries 5 k'
      = (runOps (dbW.BeginTransaction) opsW).tries 5 k') ∧
    ((runOps (dbW.BeginTransaction) opsW).Commit).durable = applyOpsStore dbW.stored opsW :=
  claim_C1_amended dbW opsW [2] 5 (by decide) (by decide) (by decide)

end Database

namespace Store

/-! ## store/storage.go: balances, nonces and the transaction executor -/

abbrev Address := Nat

/-- The two transaction types handled by `execute`'s switch. -/
inductive TxType where
  | transfer : TxType
  | miner : TxType
deriving DecidableEq, Repr

/-- The fields of `bean.Transaction` that `execute` reads.  The sender
(`t.Addr()`) is recovered from the signature; here it is carried as a field.
`GasPrice`, `GasLimit` and `Amount` are big.Int values decoded from bytes,
hence non-negative. -/
structure Tx where
  addr : Address
  nonce : Int
  gasPrice : Nat
  gasLimit : Nat
  amount : Nat
  toAddr : Address
  txType : TxType
  data : Address
deriving DecidableEq, Repr

/-- Modelled from the spec: the accessors `database.GetNonce`,
`database.PutNonce`, `database.GetBalance` called by `execute` live in the
database package, which is not under src/.  The spec's account model says a
zero account (all fields at default) is indistinguishable from an absent one,
so nonces and balances are total maps defaulting to 0. -/
structure ChainState where
  nonces : Address → Int
  balances : Address → Int
  miners : List Address

/-- The three ways `execute` can come back. -/
inductive ExecResult where
  | rejected : ExecResult
  | fatal : ExecResult
  | fee : Int → ExecResult
deriving DecidableEq, Repr

/-- `store.execute`.  `transferGas` and `minerGas` stand for the package
constants `TransferGas` and `MinerGas`, declared elsewhere in the repository
(not under src/); they are passed as parameters.  The nonce is written
*before* the gas check; `log.Fatal` (gas fee exceeding balance) aborts the
process and is modelled as the `fatal` outcome. -/
def execute (transferGas minerGas : Nat) (st : ChainState) (t : Tx) :
    ExecResult × ChainState :=
  let curN := st.nonces t.addr
  if curN + 1 ≠ t.nonce then (.rejected, st)
  else
    let st1 : ChainState :=
      { st with nonces := fun a => if a = t.addr then curN + 1 else st.nonces a }
    let gasFee : Int := (t.gasLimit : Int) * (t.gasPrice : Int)
    let balance := st1.balances t.addr
    if gasFee > balance then (.fatal, st1)
    else
      match t.txType with
      | .transfer =>
        if (t.gasLimit : Int) < (transferGas : Int) then
          (.fee gasFee,
            { st1 with balances := fun a => if a = t.addr then balance - gasFee else st1.balances a })
        else
          let amount : Int := (t.amount : Int)
          let total := amount + gasFee
          if balance ≥ total then
            let st2 : ChainState :=
              { st1 with balances := fun a => if a = t.addr then balance - total else st1.balances a }
            (.fee gasFee,
              { st2 with balances := fun a => if a = t.toAddr then st2.balances t.toAddr + amount else st2.balances a })
          else
            (.fee gasFee,
              { st1 with balances := fun a => if a = t.addr then balance - gasFee else st1.balances a })
      | .miner =>
        let st2 : ChainState :=
          { st1 with balances := fun a => if a = t.addr then balance - gasFee else st1.balances a }
        if (t.gasLimit : Int) < (minerGas : Int) then
          (.fee gasFee, st2)
        else
          (.fee gasFee, { st2 with miners := st2.miners ++ [t.data] })

/-- `store.GetBalance` over the package-level `balances` map: the stored
balance when present; otherwise it returns 0 *and inserts* a zero entry
(`balances[addr] = balance`, modelled as an append). -/
def GetBalance (balances : List (Address × Int)) (addr : Address) :
    Int × List (Address × Int) :=
  match alookup addr balances with
  | some b => (b, balances)
  | none => (0, balances ++ [(addr, 0)])

/-- `store.addNonce` on the package-level `nonces` map. -/
def addNonce (nonces : List (Address × Int)) (addr : Address) : List (Address × Int) :=
  match alookup addr nonces with
  | some v => if v ≥ 0 then aupdate addr (v + 1) nonces else aupdate addr 1 nonces
  | none => aupdate addr 1 nonces

/-- The transaction loop of `ExecuteTransactions`, returning the transactions
that were actually applied (fee returned), in order.  A `log.Fatal` inside
`execute` kills the process, so nothing after it runs. -/
def runTxs (transferGas minerGas : Nat) (st : ChainState) :
    List Tx → List Tx × ChainState
  | [] => ([], st)
  | t :: ts =>
    match execute transferGas minerGas st t with
    | (.rejected, st') => runTxs transferGas minerGas st' ts
    | (.fatal, st') => ([], st')
    | (.fee _, st') =>
      let rec' := runTxs transferGas minerGas st' ts
      (t :: rec'.1, rec'.2)

/-- The nonces of the transactions of sender `S` inside a list, in order. -/
def noncesOf (S : Address) (txs : List Tx) : List Int :=
  (txs.filter (fun t => t.addr = S)).map Tx.nonce

/-- The list `n+1, n+2, …` of the appropriate length. -/
def consecutiveFrom (n : Int) (l : List Int) : Prop :=
  l = (List.range l.length).map (fun i => n + Int.ofNat i + 1)

theorem execute_of_nonce_bad (tg mg : Nat) (st : ChainState) (t : Tx)
    (h : st.nonces t.addr + 1 ≠ t.nonce) :
    execute tg mg st t = (.rejected, st) := by
  simp [execute, h]

theorem execute_not_rejected (tg mg : Nat) (st : ChainState) (t : Tx)
    (h : st.nonces t.addr + 1 = t.nonce) :
    (execute tg mg st t).1 ≠ .rejected := by
  rcases t with ⟨addr, nonce, gp, gl, am, toA, ty, dat⟩
  simp only at h
  unfold execute
  rw [if_neg (by simp [h])]
  cases ty <;> dsimp only <;> split_ifs <;> simp

theorem execute_nonces_of_ok (tg mg : Nat) (st : ChainState) (t : Tx)
    (h : st.nonces t.addr + 1 = t.nonce) :
    ((execute tg mg st t).2).nonces
      = fun a => if a = t.addr then st.nonces t.addr + 1 else st.nonces a := by
  rcases t with ⟨addr, nonce, gp, gl, am, toA, ty, dat⟩
  simp only at h ⊢
  unfold execute
  rw [if_neg (by simp [h])]
  cases ty <;> dsimp only <;> split_ifs <;> rfl

theorem execute_rejected_eq (tg mg : Nat) (st : ChainState) (t : Tx) (st' : ChainState)
    (h : execute tg mg st t = (.rejected, st')) :
    st' = st ∧ st.nonces t.addr + 1 ≠ t.nonce := by
  by_cases hn : st.nonces t.addr + 1 = t.nonce
  · exact absurd (by rw [h]) (execute_not_rejected tg mg st t hn)
  · rw [execute_of_nonce_bad tg mg st t hn] at h
    exact ⟨(Prod.mk.injEq _ _ _ _ ▸ h).2.symm, hn⟩

theorem execute_fee_nonce (tg mg : Nat) (st : ChainState) (t : Tx) (g : Int)
    (st' : ChainState) (h : execute tg mg st t = (.fee g, st')) :
    st.nonces t.addr + 1 = t.nonce := by
  by_cases hn : st.nonces t.addr + 1 = t.nonce
  · exact hn
  · rw [execute_of_nonce_bad tg mg st t hn] at h
    cases (Prod.mk.injEq _ _ _ _ ▸ h).1

theorem consecutiveFrom_cons (n x : Int) (l : List Int)
    (hx : x = n + 1) (hl : consecutiveFrom (n + 1) l) :
    consecutiveFrom n (x :: l) := by
  unfold consecutiveFrom at hl ⊢
  subst hx
  rw [List.length_cons, List.range_succ_eq_map, List.map_cons, List.map_map]
  refine List.cons_eq_cons.mpr ⟨by simp, ?_⟩
  refine hl.trans (List.map_congr_left ?_)
  intro i _
  simp only [Function.comp_apply, Int.ofNat_eq_natCast, Nat.succ_eq_add_one]
  push_cast
  ring

theorem runTxs_consecutive (tg mg : Nat) (txs : List Tx) (S : Address) :
    ∀ (st : ChainState) (n : Int), st.nonces S = n →
    consecutiveFrom n (noncesOf S (runTxs tg mg st txs).1) := by
  induction txs with
  | nil => intro st n h0; simp [runTxs, noncesOf, consecutiveFrom]
  | cons t ts ih =>
    intro st n h0
    rcases hres : execute tg mg st t with ⟨res, st'⟩
    cases res with
    | rejected =>
      have hst : st' = st := (execute_rejected_eq tg mg st t st' hres).1
      subst hst
      simp only [runTxs, hres]
      exact ih st' n h0
    | fatal =>
      simp only [runTxs, hres]
      simp [noncesOf, consecutiveFrom]
    | fee g =>
      have hok : st.nonces t.addr + 1 = t.nonce :=
        execute_fee_nonce tg mg st t g st' hres
      have hn' : st'.nonces
          = fun a => if a = t.addr then st.nonces t.addr + 1 else st.nonces a := by
        have := execute_nonces_of_ok tg mg st t hok
        rwa [hres] at this
      simp only [runTxs, hres]
      by_cases hS : t.addr = S
      · have htn : t.nonce = n + 1 := by rw [← hok, hS, h0]
        have h0' : st'.nonces S = n + 1 := by
          have hb : st'.nonces S
              = if S = t.addr then st.nonces t.addr + 1 else st.nonces S := by
            rw [hn']
          rw [hb, if_pos hS.symm, hS, h0]
        have hrec := ih st' (n + 1) h0'
        have hfil : noncesOf S (t :: (runTxs tg mg st' ts).1)
            = t.nonce :: noncesOf S (runTxs tg mg st' ts).1 := by
          simp [noncesOf, hS]
        rw [hfil]
        exact consecutiveFrom_cons n t.nonce _ htn hrec
      · have h0' : st'.nonces S = n := by
          have hb : st'.nonces S
              = if S = t.addr then st.nonces t.addr + 1 else st.nonces S := by
            rw [hn']
          rw [hb, if_neg (fun he : S = t.addr => hS he.symm), h0]
        have hrec := ih st' n h0'
        have hfil : noncesOf S (t :: (runTxs tg mg st' ts).1)
            = noncesOf S (runTxs tg mg st' ts).1 := by
          simp [noncesOf, hS]
        rw [hfil]
        exact hrec

/-- C3: a transaction carrying nonce N is applied to the state only when the
sender's stored nonce plus one equals N (`execute` otherwise rejects it,
returning the state unchanged); applying it sets the stored nonce to N; and
consequently the nonces of the applied transactions of any sender whose
stored nonce starts at 0 are exactly 1, 2, 3, … in order, with no gaps or
repeats. -/
theorem claim_C3 (tg mg : Nat) (st : ChainState) (txs : List Tx) (S : Address)
    (h0 : st.nonces S = 0) :
    (∀ t : Tx, st.nonces t.addr + 1 ≠ t.nonce → execute tg mg st t = (.rejected, st)) ∧
    (∀ t : Tx, st.nonces t.addr + 1 = t.nonce →
      ((execute tg mg st t).2).nonces t.addr = t.nonce) ∧
    consecutiveFrom 0 (noncesOf S (runTxs tg mg st txs).1) := by
  refine ⟨fun t ht => execute_of_nonce_bad tg mg st t ht, fun t ht => ?_, ?_⟩
  · rw [execute_nonces_of_ok tg mg st t ht]
    simp [ht]
  · exact runTxs_consecutive tg mg txs S st 0 h0

/-- A concrete all-zero starting state. -/
def stZero : ChainState :=
  { nonces := fun _ => 0, balances := fun a => if a = 1 then 10 ^ 6 else 0, miners := [] }

/-- Concrete transactions to witness `claim_C3`: sender 1 sends nonces
1, 2 and a stale duplicate 2 (which is rejected). -/
def txsC3 : List Tx :=
  [ { addr := 1, nonce := 1, gasPrice := 1, gasLimit := 10, amount := 3, toAddr := 2,
      txType := .transfer, data := 0 }
  , { addr := 1, nonce := 2, gasPrice := 1, gasLimit := 10, amount := 3, toAddr := 2,
      txType := .transfer, data := 0 }
  , { addr := 1, nonce := 2, gasPrice := 1, gasLimit := 10, amount := 3, toAddr := 2,
      txType := .transfer, data := 0 } ]

/-- C3 (witness): `claim_C3` instantiated at a fresh sender and a concrete
transaction list. -/
theorem claim_C3_witness :
    (∀ t : Tx, stZero.nonces t.addr + 1 ≠ t.nonce →
      execute 21000 21000 stZero t = (.rejected, stZero)) ∧
    (∀ t : Tx, stZero.nonces t.addr + 1 = t.nonce →
      ((execute 21000 21000 stZero t).2).nonces t.addr = t.nonce) ∧
    consecutiveFrom 0 (noncesOf 1 (runTxs 21000 21000 stZero txsC3).1) :=
  claim_C3 21000 21000 stZero txsC3 1 rfl

/-- C5 (amended): `execute` never refunds unused gas.  For a transfer whose
gas limit covers `TransferGas` and whose sender balance covers
`amount + gas_limit · gas_price`, the sender is debited the full
`amount + gas_limit · gas_price` — the net gas charge is
`gas_limit · gas_price`, not `gas_used · gas_price` — and the recipient is
credited `amount`.  The E1 figure `1000·UNIT − 100·UNIT − 21000` still comes
out because there `gas_limit = 21000` equals the gas used. -/
theorem claim_C5_amended (tg mg : Nat) (st : ChainState) (t : Tx)
    (hn : st.nonces t.addr + 1 = t.nonce)
    (htype : t.txType = .transfer)
    (hgl : (tg : Int) ≤ (t.gasLimit : Int))
    (hbal : (t.amount : Int) + (t.gasLimit : Int) * (t.gasPrice : Int) ≤ st.balances t.addr)
    (hto : t.toAddr ≠ t.addr) :
    (execute tg mg st t).1 = .fee ((t.gasLimit : Int) * (t.gasPrice : Int)) ∧
    ((execute tg mg st t).2).balances t.addr
      = st.balances t.addr - (t.amount : Int) - (t.gasLimit : Int) * (t.gasPrice : Int) ∧
    ((execute tg mg st t).2).balances t.toAddr
      = st.balances t.toAddr + (t.amount : Int) := by
  rcases t with ⟨addr, nonce, gp, gl, am, toA, ty, dat⟩
  simp only at hn htype hgl hbal hto ⊢
  subst htype
  unfold execute
  rw [if_neg (by simp [hn])]
  dsimp only
  have hfee : ¬ ((gl : Int) * (gp : Int) > st.balances addr) := by
    push_neg
    calc (gl : Int) * (gp : Int) ≤ (am : Int) + (gl : Int) * (gp : Int) :=
          le_add_of_nonneg_left (Int.natCast_nonneg am)
    _ ≤ st.balances addr := hbal
  rw [if_neg hfee, if_neg (by push_neg; exact hgl), if_pos hbal]
  have hne : ¬ addr = toA := fun h => hto h.symm
  refine ⟨rfl, ?_, ?_⟩
  · simp [hne]
    ring
  · simp [hto]

/-- The E1 genesis state: account 1 holds `1000·UNIT`. -/
def stE1 : ChainState :=
  { nonces := fun _ => 0
    balances := fun a => if a = 1 then 1000 * 10 ^ 18 else 0
    miners := [] }

/-- The E1 transfer: 1 sends `100·UNIT` to 2 at gas price 1, gas limit 21000,
nonce 1. -/
def txE1 : Tx :=
  { addr := 1, nonce := 1, gasPrice := 1, gasLimit := 21000,
    amount := 100 * 10 ^ 18, toAddr := 2, txType := .transfer, data := 0 }

/-- C5 (witness): `claim_C5_amended` at the E1 scenario; the sender ends with
`1000·UNIT − 100·UNIT − 21000` because the gas limit is exactly 21000. -/
theorem claim_C5_witness :
    (execute 21000 21000 stE1 txE1).1 = .fee ((21000 : Int) * 1) ∧
    ((execute 21000 21000 stE1 txE1).2).balances 1
      = 1000 * 10 ^ 18 - (100 * 10 ^ 18 : Int) - (21000 : Int) * 1 ∧
    ((execute 21000 21000 stE1 txE1).2).balances 2 = 0 + (100 * 10 ^ 18 : Int) := by
  have h := claim_C5_amended 21000 21000 stE1 txE1 (by norm_num [stE1, txE1])
    rfl (by norm_num [txE1]) (by norm_num [stE1, txE1]) (by decide)
  simpa [stE1, txE1] using h

/-- The overspending transfer used against C5 as stated: gas limit 30000,
price 1, so the debit is 30000 even though a transfer only uses 21000 gas. -/
def txOver : Tx :=
  { addr := 1, nonce := 1, gasPrice := 1, gasLimit := 30000,
    amount := 100, toAddr := 2, txType := .transfer, data := 0 }

/-- C5 (counterexample): with gas limit 30000 the sender is charged the full
`30000 · 1`, not the claimed `gas_used · gas_price = 21000`: no unused gas is
refunded. -/
theorem claim_C5_counterexample :
    ((execute 21000 21000 stZero txOver).2).balances 1 = 10 ^ 6 - 100 - 30000 ∧
    ((execute 21000 21000 stZero txOver).2).balances 1 ≠ 10 ^ 6 - 100 - 21000 := by
  constructor
  · decide
  · decide

theorem alookup_append_self {K V : Type} [DecidableEq K] (k : K) (v : V)
    (l : List (K × V)) (h : alookup k l = none) :
    alookup k (l ++ [(k, v)]) = some v := by
  induction l with
  | nil => simp [alookup]
  | cons p rest ih =>
    rcases p with ⟨k', v'⟩
    by_cases hk : k' = k
    · simp [alookup, hk] at h
    · simp only [alookup, hk, if_neg hk, List.cons_append] at h ⊢
      exact ih h

/-- C8 (amended): reading the balance of an absent account returns 0 but
*does* materialize the account: `GetBalance` inserts a zero-balance entry
into the balances map, so the map afterwards differs from the map before. -/
theorem claim_C8_amended (balances : List (Address × Int)) (addr : Address)
    (h : alookup addr balances = none) :
    (GetBalance balances addr).1 = 0 ∧
    (GetBalance balances addr).2 = balances ++ [(addr, 0)] ∧
    alookup addr (GetBalance balances addr).2 = some 0 := by
  refine ⟨?_, ?_, ?_⟩
  · simp [GetBalance, h]
  · simp [GetBalance, h]
  · simp only [GetBalance, h]
    exact alookup_append_self addr 0 balances h

/-- C8 (counterexample): on the empty balances map, reading address 5 returns
0 and leaves the map holding a materialized zero entry for 5 — the state
after the read is distinguishable from the state before. -/
theorem claim_C8_counterexample :
    (GetBalance [] 5).1 = 0 ∧
    (GetBalance [] 5).2 = [(5, 0)] ∧
    (GetBalance [] 5).2 ≠ ([] : List (Address × Int)) := by
  refine ⟨rfl, rfl, by decide⟩

/-- C8 (witness): `claim_C8_amended` at a one-entry map and a fresh
address. -/
theorem claim_C8_witness :
    (GetBalance [(1, 7)] 9).1 = 0 ∧
    (GetBalance [(1, 7)] 9).2 = [(1, 7)] ++ [(9, 0)] ∧
    alookup 9 (GetBalance [(1, 7)] 9).2 = some 0 :=
  claim_C8_amended [(1, 7)] 9 (by decide)

end Store

namespace StakeStore

/-! ## chain/store/stakestore.go: vote credits, candidates, cancellation -/

abbrev Addr := Nat

/-- `types.StakeStorage`, whose shape is fixed by its uses in stakestore.go
and the spec's stake-storage record: received vote credits per voter and
pending cancelled credits per height.  Go maps become association lists with
unique keys. -/
structure StakeStorage where
  receivedVoteCredit : List (Addr × Nat)
  cancelVoteCredit : List (Nat × Nat)
deriving DecidableEq, Repr

def emptyStorage : StakeStorage :=
  { receivedVoteCredit := [], cancelVoteCredit := [] }

/-- The trie store as the stake layer sees it: per-address `stakeStorage`
records (the Keccak keying of `stakeStorage + addr.Hex()` is injective, so we
key by address) and the serialized `candidateAddrs` entry, `none` when the
key is absent. -/
structure StakeDB where
  stakes : Addr → Option StakeStorage
  candidates : Option (List Addr)

def GetStakeStorage (db : StakeDB) (addr : Addr) : Option StakeStorage :=
  db.stakes addr

def PutStakeStorage (db : StakeDB) (addr : Addr) (storage : StakeStorage) : StakeDB :=
  { db with stakes := fun a => if a = addr then some storage else db.stakes a }

/-- `GetCandidateAddrs`: a nil buffer deserializes to the nil map, which the
callers only measure and iterate, so it is the empty list here. -/
def GetCandidateAddrs (db : StakeDB) : List Addr :=
  db.candidates.getD []

/-- The constants of stakestore.go.  Note `drepUnit = 10^9`, not the spec's
`UNIT = 10^18`. -/
def pledgeLimit : Nat := 1000000

def drepUnit : Nat := 1000000000

def ChangeCycle : Nat := 100

/-- `UpdateCandidateAddr` with `add = true` (`AddCandidateAddr`). -/
def AddCandidateAddr (db : StakeDB) (addr : Addr) : StakeDB :=
  let addrs := GetCandidateAddrs db
  if addrs.length > 0 then
    if addr ∈ addrs then db
    else { db with candidates := some (addrs ++ [addr]) }
  else { db with candidates := some [addr] }

/-- `UpdateCandidateAddr` with `add = false` (`DelCandidateAddr`): with a
non-empty set the (possibly unchanged) set is re-serialized and stored. -/
def DelCandidateAddr (db : StakeDB) (addr : Addr) : StakeDB :=
  let addrs := GetCandidateAddrs db
  if addrs.length = 0 then db
  else { db with candidates := some (addrs.filter (fun a => ¬ a = addr)) }

/-- `VoteCredit(from, to, addBalance)`.  Faithful to the Go control flow,
including the inner `var totalBalance big.Int` of the `else` branch that
shadows the outer variable: the final pledge-threshold check reads the outer
`totalBalance`, which is assigned only in the empty-map branch and stays 0 in
the other two.  The middle component of `step` is that outer variable. -/
def VoteCredit (db : StakeDB) (fromAddr toAddr : Addr) (addBalance : Nat) : StakeDB :=
  let storage := (GetStakeStorage db toAddr).getD emptyStorage
  let step : StakeDB × StakeStorage × Nat :=
    if storage.receivedVoteCredit.length = 0 then
      (AddCandidateAddr db toAddr,
        { storage with
          receivedVoteCredit := aupdate fromAddr addBalance storage.receivedVoteCredit },
        addBalance)
    else
      match alookup fromAddr storage.receivedVoteCredit with
      | some v =>
        (db,
          { storage with
            receivedVoteCredit := aupdate fromAddr (addBalance + v) storage.receivedVoteCredit },
          0)
      | none =>
        (AddCandidateAddr db toAddr,
          { storage with
            receivedVoteCredit := aupdate fromAddr addBalance storage.receivedVoteCredit },
          0)
  let db2 :=
    if toAddr = fromAddr ∧ step.2.2 ≥ pledgeLimit * drepUnit
    then AddCandidateAddr step.1 toAddr else step.1
  PutStakeStorage db2 toAddr step.2.1

/-- `CancelVoteCredit(from, to, cancelBalance, height)`.  Faithful to the Go
source, including the `storage, _ := GetStakeStorage(fromAddr)` of the
`from ≠ to` arm that shadows the outer `storage`: the pending-cancel entry is
written to the shadowed record, which is then dropped, and the final
`PutStakeStorage(fromAddr, storage)` persists the *outer* record — the one
holding to's updated credits — under from's key.  When `from` has no stake
record, that arm builds a fresh `&types.StakeStorage{}` whose
`CancelVoteCredit` map is nil, and the assignment
`storage.CancelVoteCredit[height] = *cancelBalance` panics before the final
put: the overall result `none` models that panic.  (The outer record at the
`from = to` assignment always came from the store — a fresh record is
rejected earlier by the empty-credits check — so only the inner fetch can
panic.) -/
def CancelVoteCredit (db : StakeDB) (fromAddr toAddr : Addr) (cancelBalance : Nat)
    (height : Nat) : Option (Except String StakeDB) :=
  let storage := (GetStakeStorage db toAddr).getD emptyStorage
  if storage.receivedVoteCredit.length = 0 then some (.error "not exist vote credit")
  else
    match alookup fromAddr storage.receivedVoteCredit with
    | none => some (.error "not exist vote credit")
    | some v =>
      let cont := fun (storage1 : StakeStorage) (resultBalance : Nat) =>
        let db1 :=
          if toAddr = fromAddr ∧ resultBalance < pledgeLimit * drepUnit
          then DelCandidateAddr db toAddr else db
        let db2 := PutStakeStorage db1 toAddr storage1
        if toAddr = fromAddr then
          some (Except.ok (PutStakeStorage db2 fromAddr
            { storage1 with
              cancelVoteCredit := aupdate height cancelBalance storage1.cancelVoteCredit }))
        else
          match GetStakeStorage db2 fromAddr with
          | none =>
            -- `storage = &types.StakeStorage{}`: nil CancelVoteCredit map, and
            -- the assignment at stakestore.go:223 panics
            none
          | some innerStorage =>
            let _innerUpdated := { innerStorage with
              cancelVoteCredit := aupdate height cancelBalance innerStorage.cancelVoteCredit }
            -- the updated inner record is shadowed and dropped; the outer
            -- record is what the final put persists under from's key
            some (Except.ok (PutStakeStorage db2 fromAddr storage1))
      if v > cancelBalance then
        cont { storage with
               receivedVoteCredit :=
                 aupdate fromAddr (v - cancelBalance) storage.receivedVoteCredit }
          (v - cancelBalance)
      else if v = cancelBalance then
        cont { storage with
               receivedVoteCredit := aerase fromAddr storage.receivedVoteCredit }
          0
      else some (.error "vote credit not enough")

def listSum (l : List (Nat × Nat)) : Nat :=
  l.foldl (fun acc p => acc + p.2) 0

/-- The pending-cancel entries that have matured by `height`. -/
def maturedEntries (storage : StakeStorage) (height : Nat) : List (Nat × Nat) :=
  storage.cancelVoteCredit.filter (fun p => p.1 + ChangeCycle ≤ height)

/-- `GetCancelVoteCreditForBalance`: sums the matured entries; its delete is
commented out in the source, so the record is not modified. -/
def GetCancelVoteCreditForBalance (db : StakeDB) (addr : Addr) (height : Nat) : Nat :=
  match GetStakeStorage db addr with
  | none => 0
  | some storage => listSum (maturedEntries storage height)

/-- `CancelVoteCreditToBalance`: sums the matured entries, deletes them from
the pending map and persists the record. -/
def CancelVoteCreditToBalance (db : StakeDB) (addr : Addr) (height : Nat) :
    Nat × StakeDB :=
  match GetStakeStorage db addr with
  | none => (0, db)
  | some storage =>
    let total := listSum (maturedEntries storage height)
    let storage1 := { storage with
      cancelVoteCredit :=
        storage.cancelVoteCredit.filter (fun p => ¬ p.1 + ChangeCycle ≤ height) }
    (total, PutStakeStorage db addr storage1)

/-- `GetVoteCredit`: total credit received by `addr`. -/
def GetVoteCredit (db : StakeDB) (addr : Addr) : Nat :=
  match GetStakeStorage db addr with
  | none => 0
  | some storage => storage.receivedVoteCredit.foldl (fun acc p => acc + p.2) 0

theorem GetCandidateAddrs_Put (db : StakeDB) (a : Addr) (s : StakeStorage) :
    GetCandidateAddrs (PutStakeStorage db a s) = GetCandidateAddrs db := rfl

theorem mem_AddCandidateAddr (db : StakeDB) (b a : Addr) :
    a ∈ GetCandidateAddrs (AddCandidateAddr db b)
      ↔ a ∈ GetCandidateAddrs db ∨ a = b := by
  unfold AddCandidateAddr
  by_cases h1 : (GetCandidateAddrs db).length > 0
  · rw [if_pos h1]
    by_cases h2 : b ∈ GetCandidateAddrs db
    · rw [if_pos h2]
      constructor
      · exact Or.inl
      · rintro (h | rfl)
        · exact h
        · exact h2
    · rw [if_neg h2]
      simp [GetCandidateAddrs]
  · rw [if_neg h1]
    have hnil : GetCandidateAddrs db = [] := List.length_eq_zero.mp (by omega)
    simp [GetCandidateAddrs] at hnil ⊢
    simp [hnil]

/-- C4 (amended): `VoteCredit(from, to, amount)` adds `to` to the persisted
candidate set exactly when `to` was already a candidate or `from` was not yet
present in `to`'s received-vote-credit map — in particular `to` becomes a
candidate on its very first vote, from any voter, for any amount.  Candidate
membership does not require any self-stake; moreover the threshold constant
the code compares against is `pledgeLimit · drepUnit = 10^6 · 10^9 = 10^15`,
not `10^6 · 10^18`. -/
theorem claim_C4_amended (db : StakeDB) (fromAddr toAddr : Addr) (amt : Nat) :
    pledgeLimit * drepUnit = 10 ^ 15 ∧
    (toAddr ∈ GetCandidateAddrs (VoteCredit db fromAddr toAddr amt)
      ↔ toAddr ∈ GetCandidateAddrs db
        ∨ alookup fromAddr
            ((GetStakeStorage db toAddr).getD emptyStorage).receivedVoteCredit = none) := by
  refine ⟨by norm_num [pledgeLimit, drepUnit], ?_⟩
  unfold VoteCredit
  dsimp only
  by_cases h0 : ((GetStakeStorage db toAddr).getD emptyStorage).receivedVoteCredit.length = 0
  · have hlk : alookup fromAddr
        ((GetStakeStorage db toAddr).getD emptyStorage).receivedVoteCredit = none := by
      rw [List.length_eq_zero.mp h0]
      rfl
    rw [if_pos h0]
    dsimp only
    rw [GetCandidateAddrs_Put]
    split
    · rw [mem_AddCandidateAddr, mem_AddCandidateAddr]
      simp [hlk]
    · rw [mem_AddCandidateAddr]
      simp [hlk]
  · rw [if_neg h0]
    cases hlk : alookup fromAddr
        ((GetStakeStorage db toAddr).getD emptyStorage).receivedVoteCredit with
    | some v =>
      have hth : ¬ (toAddr = fromAddr ∧
          (0 : Nat) ≥ pledgeLimit * drepUnit) := by
        rintro ⟨-, habs⟩
        norm_num [pledgeLimit, drepUnit] at habs
      dsimp only
      rw [GetCandidateAddrs_Put, if_neg hth]
      simp [hlk]
    | none =>
      have hth : ¬ (toAddr = fromAddr ∧
          (0 : Nat) ≥ pledgeLimit * drepUnit) := by
        rintro ⟨-, habs⟩
        norm_num [pledgeLimit, drepUnit] at habs
      dsimp only
      rw [GetCandidateAddrs_Put, if_neg hth, mem_AddCandidateAddr]
      simp [hlk]

/-- The empty stake database. -/
def dbEmptyS : StakeDB := { stakes := fun _ => none, candidates := none }

/-- C4 (counterexample): on an empty state, `VoteCredit(1, 2, 1)` — the very
first vote for address 2, from a different voter, of amount 1 — makes 2 a
persisted candidate although 2's self-vote credit is absent and the amount is
far below any pledge threshold. -/
theorem claim_C4_counterexample :
    (2 : Addr) ∈ GetCandidateAddrs (VoteCredit dbEmptyS 1 2 1) ∧
    alookup (2 : Addr)
      ((GetStakeStorage (VoteCredit dbEmptyS 1 2 1) 2).getD emptyStorage).receivedVoteCredit
      = none ∧
    ¬ pledgeLimit * drepUnit ≤ 1 := by
  refine ⟨by decide, by decide, by decide⟩

/-- C6: a cancelled credit recorded at height h is excluded from the total of
`CancelVoteCreditToBalance` and kept in the pending map for every query
height strictly below h + ChangeCycle, and is included in the returned total
and removed from the pending map for every query height at or above
h + ChangeCycle. -/
theorem claim_C6 (db : StakeDB) (addr : Addr) (storage : StakeStorage)
    (h amt q : Nat)
    (hs : GetStakeStorage db addr = some storage)
    (hmem : (h, amt) ∈ storage.cancelVoteCredit) :
    (CancelVoteCreditToBalance db addr q).1 = listSum (maturedEntries storage q) ∧
    (q < h + ChangeCycle →
      (h, amt) ∉ maturedEntries storage q ∧
      (h, amt) ∈ ((GetStakeStorage (CancelVoteCreditToBalance db addr q).2 addr).getD
          emptyStorage).cancelVoteCredit) ∧
    (h + ChangeCycle ≤ q →
      (h, amt) ∈ maturedEntries storage q ∧
      (h, amt) ∉ ((GetStakeStorage (CancelVoteCreditToBalance db addr q).2 addr).getD
          emptyStorage).cancelVoteCredit) := by
  have hred : CancelVoteCreditToBalance db addr q
      = (listSum (maturedEntries storage q),
         PutStakeStorage db addr { storage with
           cancelVoteCredit :=
             storage.cancelVoteCredit.filter (fun p => ¬ p.1 + ChangeCycle ≤ q) }) := by
    unfold CancelVoteCreditToBalance
    rw [hs]
  rw [hred]
  have hget : (GetStakeStorage
      (PutStakeStorage db addr { storage with
        cancelVoteCredit :=
          storage.cancelVoteCredit.filter (fun p => ¬ p.1 + ChangeCycle ≤ q) }) addr).getD
        emptyStorage
      = { storage with
          cancelVoteCredit :=
            storage.cancelVoteCredit.filter (fun p => ¬ p.1 + ChangeCycle ≤ q) } := by
    simp [GetStakeStorage, PutStakeStorage]
  refine ⟨rfl, fun hq => ⟨?_, ?_⟩, fun hq => ⟨?_, ?_⟩⟩
  · intro hmemf
    have := (List.mem_filter.mp hmemf).2
    simp only [decide_eq_true_eq] at this
    omega
  · rw [hget]
    simp only [List.mem_filter, decide_eq_true_eq]
    exact ⟨hmem, by omega⟩
  · refine List.mem_filter.mpr ⟨hmem, ?_⟩
    simp only [decide_eq_true_eq]
    exact hq
  · rw [hget]
    intro hmemf
    have := (List.mem_filter.mp hmemf).2
    simp only [decide_eq_true_eq] at this
    omega

/-- A stake database holding one pending cancellation of 7 recorded at
height 150 for address 3. -/
def dbC6 : StakeDB :=
  { stakes := fun a =>
      if a = 3 then some { receivedVoteCredit := [], cancelVoteCredit := [(150, 7)] }
      else none
    candidates := none }

/-- C6 (witness): `claim_C6` at the concrete entry (150, 7) queried at
height 200 < 150 + 100. -/
theorem claim_C6_witness :
    (CancelVoteCreditToBalance dbC6 3 200).1
      = listSum (maturedEntries { receivedVoteCredit := [], cancelVoteCredit := [(150, 7)] } 200) ∧
    (200 < 150 + ChangeCycle →
      (150, 7) ∉ maturedEntries { receivedVoteCredit := [], cancelVoteCredit := [(150, 7)] } 200 ∧
      (150, 7) ∈ ((GetStakeStorage (CancelVoteCreditToBalance dbC6 3 200).2 3).getD
          emptyStorage).cancelVoteCredit) ∧
    (150 + ChangeCycle ≤ 200 →
      (150, 7) ∈ maturedEntries { receivedVoteCredit := [], cancelVoteCredit := [(150, 7)] } 200 ∧
      (150, 7) ∉ ((GetStakeStorage (CancelVoteCreditToBalance dbC6 3 200).2 3).getD
          emptyStorage).cancelVoteCredit) :=
  claim_C6 dbC6 3 { receivedVoteCredit := [], cancelVoteCredit := [(150, 7)] } 150 7 200
    (by decide) (by decide)

/-- The record `CancelVoteCredit` builds for `to` when the `from → to` entry
holds `v ≥ cancel`: the credit is decremented (or the entry erased when it
hits zero); the pending-cancel map is untouched. -/
def cancelUpdatedStorage (f : Addr) (c v : Nat)
    (storage : StakeStorage) : StakeStorage :=
  if v > c
  then { storage with receivedVoteCredit := aupdate f (v - c) storage.receivedVoteCredit }
  else { storage with receivedVoteCredit := aerase f storage.receivedVoteCredit }

/-- C9: for `from ≠ to` with a sufficient `from → to` credit and `from`
holding a stake record of its own (without one the Go code panics on the nil
pending-cancel map before reaching the final put), the record persisted under
from's stake key is to's updated record (the shadowed inner fetch of from's
storage is dropped): both keys end up holding the same updated record, the
pending entry `height → amount` intended for `from` is never persisted (the
stored cancel map is to's original one), and from's previous stake record at
that key is overwritten. -/
theorem claim_C9 (db : StakeDB) (f t : Addr) (c h v : Nat) (s0 : StakeStorage)
    (hft : t ≠ f)
    (hf : GetStakeStorage db f = some s0)
    (hl : alookup f ((GetStakeStorage db t).getD emptyStorage).receivedVoteCredit = some v)
    (hc : c ≤ v) :
    ∃ db' : StakeDB, CancelVoteCredit db f t c h = some (.ok db') ∧
      GetStakeStorage db' f
        = some (cancelUpdatedStorage f c v ((GetStakeStorage db t).getD emptyStorage)) ∧
      GetStakeStorage db' t
        = some (cancelUpdatedStorage f c v ((GetStakeStorage db t).getD emptyStorage)) ∧
      (cancelUpdatedStorage f c v
          ((GetStakeStorage db t).getD emptyStorage)).cancelVoteCredit
        = ((GetStakeStorage db t).getD emptyStorage).cancelVoteCredit := by
  have hne : ¬ ((GetStakeStorage db t).getD emptyStorage).receivedVoteCredit.length = 0 := by
    intro h0
    rw [List.length_eq_zero.mp h0] at hl
    cases hl
  have hf2 : ∀ X : StakeStorage, GetStakeStorage (PutStakeStorage db t X) f = some s0 := by
    intro X
    show (if f = t then some X else db.stakes f) = some s0
    rw [if_neg (fun he : f = t => hft he.symm)]
    exact hf
  have key : CancelVoteCredit db f t c h
      = some (.ok (PutStakeStorage
          (PutStakeStorage db t
            (cancelUpdatedStorage f c v ((GetStakeStorage db t).getD emptyStorage)))
          f
          (cancelUpdatedStorage f c v ((GetStakeStorage db t).getD emptyStorage)))) := by
    unfold CancelVoteCredit
    rw [if_neg hne, hl]
    dsimp only
    by_cases hvc : v > c
    · rw [if_pos hvc,
        if_neg (fun hand : t = f ∧ v - c < pledgeLimit * drepUnit => hft hand.1),
        if_neg hft, hf2 _]
      simp only [cancelUpdatedStorage, if_pos hvc]
    · have hveq : v = c := by omega
      rw [if_neg hvc, if_pos hveq,
        if_neg (fun hand : t = f ∧ 0 < pledgeLimit * drepUnit => hft hand.1),
        if_neg hft, hf2 _]
      simp only [cancelUpdatedStorage, if_neg hvc]
  refine ⟨_, key, ?_, ?_, ?_⟩
  · simp [GetStakeStorage, PutStakeStorage]
  · simp [GetStakeStorage, PutStakeStorage, hft]
  · unfold cancelUpdatedStorage
    split <;> rfl

/-- A stake database where voter 1 holds a credit of 10 with address 2, whose
record also carries a pending cancellation (4, 9); address 1 has its own
record that the bug will overwrite. -/
def dbC9 : StakeDB :=
  { stakes := fun a =>
      if a = 2 then some { receivedVoteCredit := [(1, 10)], cancelVoteCredit := [(4, 9)] }
      else if a = 1 then some { receivedVoteCredit := [(5, 3)], cancelVoteCredit := [] }
      else none
    candidates := none }

/-- C9 (witness): `claim_C9` at `CancelVoteCredit(from 1, to 2, amount 3,
height 77)` on `dbC9`, where address 1 has its own stake record. -/
theorem claim_C9_witness :
    ∃ db' : StakeDB, CancelVoteCredit dbC9 1 2 3 77 = some (.ok db') ∧
      GetStakeStorage db' 1
        = some (cancelUpdatedStorage 1 3 10 ((GetStakeStorage dbC9 2).getD emptyStorage)) ∧
      GetStakeStorage db' 2
        = some (cancelUpdatedStorage 1 3 10 ((GetStakeStorage dbC9 2).getD emptyStorage)) ∧
      (cancelUpdatedStorage 1 3 10
          ((GetStakeStorage dbC9 2).getD emptyStorage)).cancelVoteCredit
        = ((GetStakeStorage dbC9 2).getD emptyStorage).cancelVoteCredit :=
  claim_C9 dbC9 1 2 3 77 10 { receivedVoteCredit := [(5, 3)], cancelVoteCredit := [] }
    (by decide) (by decide) (by decide) (by decide)

end StakeStore

namespace ChainService

/-! ## chain service (ProcessBlock / getReorganizeNodes / reorganizeChain) -/

abbrev Hash := Nat

/-- Modelled from the spec: `chainTypes.BlockStatus` is not under src/; the
spec gives the flag set {DataStored, Valid, ValidateFailed, InvalidAncestor}
as a bitset, modelled as bits of a Nat in that order. -/
def statusDataStored : Nat := 1

def statusValid : Nat := 2

def statusValidateFailed : Nat := 4

def statusInvalidAncestor : Nat := 8

/-- `BlockStatus.KnownInvalid`: ValidateFailed or InvalidAncestor set. -/
def knownInvalid (s : Nat) : Bool :=
  decide (s.land (statusValidateFailed + statusInvalidAncestor) ≠ 0)

/-- A block-index node with its parent chain materialized; `none` parent is
the genesis. -/
inductive BNode where
  | mk (hash : Hash) (height : Int) (parent : Option BNode)

/-- Structural equality test for block-index nodes. -/
def BNode.beq : BNode → BNode → Bool
  | .mk h1 t1 p1, .mk h2 t2 p2 =>
    h1 == h2 && t1 == t2 &&
      match p1, p2 with
      | none, none => true
      | some a, some b => BNode.beq a b
      | _, _ => false

theorem BNode.beq_refl : ∀ a : BNode, BNode.beq a a = true
  | .mk h t p => by
    unfold BNode.beq
    cases p with
    | none => simp
    | some a => simp [BNode.beq_refl a]

theorem BNode.eq_of_beq : ∀ (a b : BNode), BNode.beq a b = true → a = b
  | .mk h1 t1 p1, .mk h2 t2 p2, hb => by
    unfold BNode.beq at hb
    simp only [Bool.and_eq_true, beq_iff_eq] at hb
    obtain ⟨⟨e1, e2⟩, e3⟩ := hb
    subst e1
    subst e2
    cases p1 with
    | none =>
      cases p2 with
      | none => rfl
      | some b => cases e3
    | some a =>
      cases p2 with
      | none => cases e3
      | some b => rw [BNode.eq_of_beq a b e3]

instance : DecidableEq BNode := fun a b =>
  if h : BNode.beq a b = true then isTrue (BNode.eq_of_beq a b h)
  else isFalse (fun he => h (he ▸ BNode.beq_refl a))

def BNode.hash : BNode → Hash
  | .mk h _ _ => h

def BNode.height : BNode → Int
  | .mk _ h _ => h

def BNode.parent : BNode → Option BNode
  | .mk _ _ p => p

/-- The block payload `reorganizeChain` reads: its header state root and its
transactions (opaque). -/
structure Block where
  stateRoot : Nat
  txs : List Nat
deriving DecidableEq, Repr

/-- The `ChainService` state the reorganization path touches: the in-memory
state trie contents (abstracted to one value), the open database
transaction's captured pre-state (`none` when no transaction is open), the
best-chain tip, and the block index's status map keyed by hash. -/
structure CS where
  trie : Nat
  snapshot : Option Nat
  tip : BNode
  statuses : Hash → Nat

/-- Modelled from the spec: the collaborators of `reorganizeChain` whose
implementations are not under src/ — `DatabaseService.GetBlock` (persistent
block store), `chainService.execute` (deterministic per-tx transition),
`DatabaseService.GetStateRoot` (root of the current trie), and
`Rollback2Block h`, which per the spec reconstructs the exact state trie at
height `h`. -/
structure Env where
  getBlock : Hash → Option Block
  applyTx : Nat → Nat → Nat
  rootOf : Nat → Nat
  stateAt : Int → Nat

/-- `markState`: set the best-chain tip and publish the node as chain state
(the `PutChainState` / `StateSnapshot` / `RecordBlockJournal` writes carry no
information beyond the node itself here). -/
def markState (cs : CS) (node : BNode) : CS :=
  { cs with tip := node }

/-- `DatabaseService.BeginTransaction`: capture the current trie state. -/
def dbBegin (cs : CS) : CS :=
  { cs with snapshot := some cs.trie }

/-- Modelled from the spec: `DatabaseService.Commit` flushes the open
transaction; the in-memory trie keeps the written state. -/
def dbCommit (cs : CS) : CS :=
  { cs with snapshot := none }

/-- Modelled from the spec: `DatabaseService.Discard` reverts the in-memory
trie to the snapshot captured at `BeginTransaction` (§4.A: discard undoes the
journal against the snapshot). -/
def dbDiscard (cs : CS) : CS :=
  { cs with trie := cs.snapshot.getD cs.trie, snapshot := none }

/-- The `for _, t := range bk.Data.TxList { chainService.execute(t) }` loop. -/
def applyTxs (env : Env) (txs : List Nat) (trieState : Nat) : Nat :=
  txs.foldl (fun s tx => env.applyTx tx s) trieState

/-- The attach loop of `reorganizeChain`: execute each block, compare the
recomputed state root with the header, mark state and continue on a match;
on a mismatch `success = false` breaks the loop and the transaction is
discarded (the function still returns nil).  A missing block returns the
error with the transaction left open.  No status flag is touched. -/
def reorgLoop (env : Env) (cs : CS) : List BNode → Except String CS
  | [] => .ok (dbCommit cs)
  | bkn :: rest =>
    match env.getBlock bkn.hash with
    | none => .error "block not found"
    | some bk =>
      let cs1 := { cs with trie := applyTxs env bk.txs cs.trie }
      if bk.stateRoot = env.rootOf cs1.trie then
        reorgLoop env (markState cs1 bkn) rest
      else
        .ok (dbDiscard cs1)

/-- `reorganizeChain`.  The Go source begins with
`elem := detachNodes.Back(); lastBlock := elem.Value.(*chainTypes.BlockNode)`
with no nil check: on an empty detach list `elem` is nil and the dereference
panics — modelled as `none`.  Otherwise it rolls the state back to the fork
height, marks the last detached node as tip, opens a transaction and runs the
attach loop. -/
def reorganizeChain (env : Env) (cs : CS) (detachNodes attachNodes : List BNode) :
    Option (Except String CS) :=
  match detachNodes.getLast? with
  | none => none
  | some lastBlock =>
    let cs1 := { cs with trie := env.stateAt (lastBlock.height - 1) }
    let cs2 := markState cs1 lastBlock
    let cs3 := dbBegin cs2
    some (reorgLoop env cs3 attachNodes)

/-- `blockIndex.SetStatusFlags`: or the flag into the node's status. -/
def setStatusFlags (statuses : Hash → Nat) (node : BNode) (flag : Nat) : Hash → Nat :=
  fun hh => if hh = node.hash then (statuses node.hash).lor flag else statuses hh

/-- Status of a node's parent; a nil parent reads status 0 (the genesis is
never invalid). -/
def parentStatus (statuses : Hash → Nat) : Option BNode → Nat
  | none => 0
  | some p => statuses p.hash

/-- The parent chain shrinks: used for the walk terminations below. -/
theorem BNode.sizeOf_parent_lt (n : BNode) : sizeOf n.parent < sizeOf (some n) := by
  rcases n with ⟨hh, ht, pp⟩
  simp [BNode.parent]
  omega

/-- The first loop of `getReorganizeNodes`: walk from `node` down to (and
excluding) the fork node, pushing each node onto the front of the attach
list; stop with `invalidChain = true` at the first known-invalid node. -/
def collectAttach (statuses : Hash → Nat) (forkNode : Option BNode) :
    Option BNode → List BNode × Bool
  | none => ([], false)
  | some n =>
    if some n = forkNode then ([], false)
    else if knownInvalid (statuses n.hash) then ([], true)
    else
      let rec' := collectAttach statuses forkNode n.parent
      (rec'.1 ++ [n], rec'.2)
termination_by o => sizeOf o
decreasing_by
  exact BNode.sizeOf_parent_lt _

/-- The second loop of `getReorganizeNodes`: walk from the tip down to (and
excluding) the fork node, pushing back — tip-first order. -/
def collectDetach (forkNode : Option BNode) : Option BNode → List BNode
  | none => []
  | some n => if some n = forkNode then [] else n :: collectDetach forkNode n.parent
termination_by o => sizeOf o
decreasing_by
  exact BNode.sizeOf_parent_lt _

/-- `getReorganizeNodes`.  `forkOf` stands for `BestChain.FindFork` (nearest
common ancestor with the tip; its implementation is not under src/ and is
passed as a parameter).  When the node's parent is known-invalid, both lists
come back empty and the node is marked InvalidAncestor; when an invalid node
sits on the path to the fork, the collected attach nodes are unwound (marked
InvalidAncestor) and both lists come back empty. -/
def getReorganizeNodes (cs : CS) (forkOf : BNode → Option BNode) (node : BNode) :
    List BNode × List BNode × (Hash → Nat) :=
  if knownInvalid (parentStatus cs.statuses node.parent) then
    ([], [], setStatusFlags cs.statuses node statusInvalidAncestor)
  else
    let forkNode := forkOf node
    let walk := collectAttach cs.statuses forkNode (some node)
    if walk.2 then
      ([], [],
        walk.1.foldl (fun st n => setStatusFlags st n statusInvalidAncestor) cs.statuses)
    else
      (collectDetach forkNode (some cs.tip), walk.1, cs.statuses)

/-- `allRootsMatch env ts attach`: every attached block is stored and its
header state root equals the root recomputed after executing it. -/
def allRootsMatch (env : Env) : Nat → List BNode → Prop
  | _, [] => True
  | ts, bkn :: rest =>
    ∃ bk, env.getBlock bkn.hash = some bk ∧
      bk.stateRoot = env.rootOf (applyTxs env bk.txs ts) ∧
      allRootsMatch env (applyTxs env bk.txs ts) rest

/-- The trie contents after replaying the attach list. -/
def finalTrie (env : Env) : Nat → List BNode → Nat
  | ts, [] => ts
  | ts, bkn :: rest =>
    match env.getBlock bkn.hash with
    | none => ts
    | some bk => finalTrie env (applyTxs env bk.txs ts) rest

theorem getLastD_cons (n : BNode) (rest : List BNode) (d : BNode) :
    ((n :: rest).getLast?.getD d) = rest.getLast?.getD n := by
  cases rest with
  | nil => rfl
  | cons m ms => rw [List.getLast?_cons_cons]; rfl

theorem reorgLoop_success (env : Env) (cs : CS) (attach : List BNode)
    (h : allRootsMatch env cs.trie attach) :
    reorgLoop env cs attach
      = .ok (dbCommit { cs with trie := finalTrie env cs.trie attach,
                                tip := attach.getLast?.getD cs.tip }) := by
  induction attach generalizing cs with
  | nil => rfl
  | cons bkn rest ih =>
    rcases h with ⟨bk, hget, hroot, hrest⟩
    show (match env.getBlock bkn.hash with
      | none => Except.error "block not found"
      | some bk =>
        let cs1 := { cs with trie := applyTxs env bk.txs cs.trie }
        if bk.stateRoot = env.rootOf cs1.trie then
          reorgLoop env (markState cs1 bkn) rest
        else
          .ok (dbDiscard cs1)) = _
    rw [hget]
    dsimp only
    rw [if_pos hroot]
    have := ih (markState { cs with trie := applyTxs env bk.txs cs.trie } bkn) hrest
    rw [this]
    show Except.ok (dbCommit _) = Except.ok (dbCommit _)
    have hfin : finalTrie env cs.trie (bkn :: rest)
        = finalTrie env (applyTxs env bk.txs cs.trie) rest := by
      show (match env.getBlock bkn.hash with
        | none => cs.trie
        | some bk => finalTrie env (applyTxs env bk.txs cs.trie) rest) = _
      rw [hget]
    rw [hfin, getLastD_cons]
    rfl

/-- C2 (amended): with a non-empty detach list, `reorganizeChain` rolls the
state back to the fork height, retips to the last detached node and opens a
transaction.  If every attached block is stored and its recomputed state root
matches its header, the transaction is committed and the tip ends at the last
attached node.  If the first attached block's root mismatches, the
transaction is discarded — which restores the in-memory trie only to the
snapshot captured after the rollback, not to the pre-reorganization state —
the tip stays at the last detached node, and no node's status changes: the
failing node is not marked ValidateFailed. -/
theorem claim_C2_amended (env : Env) (cs : CS) (detach attach : List BNode)
    (lastBlock : BNode) (hd : detach.getLast? = some lastBlock) :
    (allRootsMatch env (env.stateAt (lastBlock.height - 1)) attach →
      reorganizeChain env cs detach attach
        = some (.ok { trie := finalTrie env (env.stateAt (lastBlock.height - 1)) attach,
                      snapshot := none,
                      tip := attach.getLast?.getD lastBlock,
                      statuses := cs.statuses })) ∧
    (∀ n rest bk, attach = n :: rest → env.getBlock n.hash = some bk →
      bk.stateRoot ≠ env.rootOf (applyTxs env bk.txs (env.stateAt (lastBlock.height - 1))) →
      reorganizeChain env cs detach attach
        = some (.ok { trie := env.stateAt (lastBlock.height - 1),
                      snapshot := none,
                      tip := lastBlock,
                      statuses := cs.statuses })) := by
  constructor
  · intro hall
    unfold reorganizeChain
    rw [hd]
    dsimp only [markState, dbBegin]
    rw [reorgLoop_success env
      { trie := env.stateAt (lastBlock.height - 1),
        snapshot := some (env.stateAt (lastBlock.height - 1)),
        tip := lastBlock, statuses := cs.statuses } attach hall]
    rfl
  · intro n rest bk hatt hget hroot
    subst hatt
    unfold reorganizeChain
    rw [hd]
    show some (match env.getBlock n.hash with
      | none => Except.error "block not found"
      | some bk =>
        let cs1 := { dbBegin (markState { cs with
            trie := env.stateAt (lastBlock.height - 1) } lastBlock) with
          trie := applyTxs env bk.txs (env.stateAt (lastBlock.height - 1)) }
        if bk.stateRoot = env.rootOf cs1.trie then
          reorgLoop env (markState cs1 n) rest
        else
          .ok (dbDiscard cs1)) = _
    rw [hget]
    dsimp only
    rw [if_neg hroot]
    rfl

/-- The last (and only) node the reorganization detaches in the C2
counterexample. -/
def nodeD : BNode := .mk 10 1 none

/-- The attaching node whose block carries a wrong state root. -/
def nodeA : BNode := .mk 20 2 none

/-- An environment in which every stored block claims state root 99 while the
recomputed root is 3. -/
def envC2 : Env :=
  { getBlock := fun _ => some { stateRoot := 99, txs := [] }
    applyTx := fun _ s => s
    rootOf := fun s => s
    stateAt := fun _ => 3 }

/-- The chain state before the C2 counterexample reorganization: trie
contents 7, every node DataStored. -/
def csC2 : CS :=
  { trie := 7, snapshot := none, tip := .mk 11 2 none, statuses := fun _ => 1 }

/-- What the code actually leaves behind in the C2 counterexample. -/
def csC2res : CS :=
  { trie := 3, snapshot := none, tip := nodeD, statuses := fun _ => 1 }

/-- C2 (counterexample): the attach node's root mismatches, the transaction
is discarded, yet the failing node's status stays DataStored (bit
ValidateFailed clear) and the trie ends at the rolled-back fork state 3, not
the pre-reorganization state 7 — the claim's "state is exactly as it was
before" and "failing node is marked ValidateFailed" are both false here. -/
theorem claim_C2_counterexample :
    reorganizeChain envC2 csC2 [nodeD] [nodeA] = some (.ok csC2res) ∧
    csC2res.statuses nodeA.hash = csC2.statuses nodeA.hash ∧
    Nat.land (csC2res.statuses nodeA.hash) statusValidateFailed = 0 ∧
    csC2res.trie = 3 ∧
    csC2.trie = 7 := by
  refine ⟨rfl, rfl, by decide, rfl, rfl⟩

/-- C2 (witness): `claim_C2_amended` at the concrete counterexample inputs;
its mismatch arm applied to the concrete block yields the discarded state. -/
theorem claim_C2_witness :
    reorganizeChain envC2 csC2 [nodeD] [nodeA]
      = some (.ok { trie := envC2.stateAt (nodeD.height - 1),
                    snapshot := none,
                    tip := nodeD,
                    statuses := csC2.statuses }) :=
  (claim_C2_amended envC2 csC2 [nodeD] [nodeA] nodeD rfl).2 nodeA []
    { stateRoot := 99, txs := [] } rfl rfl (by decide)

/-- The chain-service state `ProcessBlock` can observe or mutate: stored
block hashes (`blockExists` consults the block store and index), the orphan
pool keys, the best-chain tip and the state trie. -/
structure NodeState where
  stored : List Hash
  orphans : List Hash
  tip : BNode
  trie : Nat

/-- An incoming block as `ProcessBlock`'s guards see it. -/
structure PBlock where
  hash : Hash
  prevHash : Hash
deriving DecidableEq, Repr

/-- `ProcessBlock`'s dispatch (part_004).  Modelled from the spec:
`blockExists` is membership of the hash among stored blocks, the orphan check
membership in the orphan pool.  The downstream helpers sit outside the
duplicate paths and are taken as parameters: `accept` covers `acceptBlock`
(error, main-chain flag, new state), `addOrphan` covers `addOrphanBlock`,
`procOrphans` covers `processOrphans`. -/
def ProcessBlock
    (accept : NodeState → PBlock → Option String × Bool × NodeState)
    (addOrphan : NodeState → PBlock → NodeState)
    (procOrphans : NodeState → Hash → Option String × NodeState)
    (st : NodeState) (b : PBlock) :
    (Bool × Bool × Option String) × NodeState :=
  if b.hash ∈ st.stored then
    ((false, false, some "already have block"), st)
  else if b.hash ∈ st.orphans then
    ((false, false, some "already have block (orphan)"), st)
  else if b.prevHash ∉ st.stored then
    ((false, true, none), addOrphan st b)
  else
    match accept st b with
    | (some e, _, st1) => ((false, false, some e), st1)
    | (none, isMain, st1) =>
      match procOrphans st1 b.hash with
      | (some e, st2) => ((false, false, some e), st2)
      | (none, st2) => ((isMain, false, none), st2)

/-- C7: a block whose hash is already stored, or already queued as an orphan,
is rejected by `ProcessBlock` with the duplicate (resp. duplicate-orphan)
error before anything is touched: whatever the downstream helpers would do,
the returned state is exactly the input state — block store, index, orphan
pool, tip and trie unchanged. -/
theorem claim_C7
    (accept : NodeState → PBlock → Option String × Bool × NodeState)
    (addOrphan : NodeState → PBlock → NodeState)
    (procOrphans : NodeState → Hash → Option String × NodeState)
    (st : NodeState) (b : PBlock)
    (hdup : b.hash ∈ st.stored ∨ b.hash ∈ st.orphans) :
    (ProcessBlock accept addOrphan procOrphans st b).2 = st ∧
    (ProcessBlock accept addOrphan procOrphans st b).1.1 = false ∧
    (ProcessBlock accept addOrphan procOrphans st b).1.2.1 = false ∧
    (b.hash ∈ st.stored →
      (ProcessBlock accept addOrphan procOrphans st b).1.2.2
        = some "already have block") ∧
    (b.hash ∉ st.stored →
      (ProcessBlock accept addOrphan procOrphans st b).1.2.2
        = some "already have block (orphan)") := by
  by_cases hs : b.hash ∈ st.stored
  · refine ⟨?_, ?_, ?_, fun _ => ?_, fun hns => absurd hs hns⟩ <;>
      simp [ProcessBlock, hs]
  · have ho : b.hash ∈ st.orphans := hdup.resolve_left hs
    refine ⟨?_, ?_, ?_, fun hs' => absurd hs' hs, fun _ => ?_⟩ <;>
      simp [ProcessBlock, hs, ho]

/-- A node state that already stores block 5 and holds block 6 as orphan. -/
def stC7 : NodeState :=
  { stored := [5], orphans := [6], tip := nodeD, trie := 0 }

/-- C7 (witness): `claim_C7` for resubmitting the already-stored block 5. -/
theorem claim_C7_witness :
    (ProcessBlock (fun st _ => (none, false, st)) (fun st _ => st)
        (fun st _ => (none, st)) stC7 { hash := 5, prevHash := 0 }).2 = stC7 ∧
    (ProcessBlock (fun st _ => (none, false, st)) (fun st _ => st)
        (fun st _ => (none, st)) stC7 { hash := 5, prevHash := 0 }).1.1 = false ∧
    (ProcessBlock (fun st _ => (none, false, st)) (fun st _ => st)
        (fun st _ => (none, st)) stC7 { hash := 5, prevHash := 0 }).1.2.1 = false ∧
    ((5 : Hash) ∈ stC7.stored →
      (ProcessBlock (fun st _ => (none, false, st)) (fun st _ => st)
        (fun st _ => (none, st)) stC7 { hash := 5, prevHash := 0 }).1.2.2
        = some "already have block") ∧
    ((5 : Hash) ∉ stC7.stored →
      (ProcessBlock (fun st _ => (none, false, st)) (fun st _ => st)
        (fun st _ => (none, st)) stC7 { hash := 5, prevHash := 0 }).1.2.2
        = some "already have block (orphan)") :=
  claim_C7 (fun st _ => (none, false, st)) (fun st _ => st) (fun st _ => (none, st))
    stC7 { hash := 5, prevHash := 0 } (Or.inl (by decide))

theorem getLast?_cons_ne_none (d : BNode) (ds : List BNode) :
    (d :: ds).getLast? ≠ none := by
  induction ds generalizing d with
  | nil => simp
  | cons e es ih => rw [List.getLast?_cons_cons]; exact ih e

/-- C10: `reorganizeChain` dereferences the back element of the detach list
without a nil check — it panics exactly when the detach list is empty and is
free of the nil dereference exactly when it is non-empty; and when the
incoming node's parent is known-invalid, `getReorganizeNodes` returns both
lists empty, so reaching the reorganization call in that situation hits the
nil dereference. -/
theorem claim_C10 (env : Env) (cs cs' : CS) (detach attach : List BNode)
    (forkOf : BNode → Option BNode) (node : BNode)
    (hinv : knownInvalid (parentStatus cs.statuses node.parent) = true) :
    (reorganizeChain env cs' detach attach = none ↔ detach = []) ∧
    (getReorganizeNodes cs forkOf node).1 = [] ∧
    (getReorganizeNodes cs forkOf node).2.1 = [] ∧
    reorganizeChain env cs' (getReorganizeNodes cs forkOf node).1
      (getReorganizeNodes cs forkOf node).2.1 = none := by
  have hre : ∀ dl al, reorganizeChain env cs' dl al = none ↔ dl = [] := by
    intro dl al
    constructor
    · intro hnone
      cases hdl : dl with
      | nil => rfl
      | cons d ds =>
        exfalso
        subst hdl
        obtain ⟨x, hx⟩ : ∃ x, (d :: ds).getLast? = some x :=
          Option.ne_none_iff_exists'.mp (getLast?_cons_ne_none d ds)
        unfold reorganizeChain at hnone
        rw [hx] at hnone
        cases hnone
    · intro hdl
      subst hdl
      rfl
  have hg : getReorganizeNodes cs forkOf node
      = ([], [], setStatusFlags cs.statuses node statusInvalidAncestor) := by
    unfold getReorganizeNodes
    rw [if_pos hinv]
  refine ⟨hre detach attach, ?_, ?_, ?_⟩
  · rw [hg]
  · rw [hg]
  · rw [hg]
    rfl

/-- A node whose parent (hash 31) is marked ValidateFailed. -/
def nodeC10 : BNode := .mk 30 3 (some (.mk 31 2 none))

/-- A chain state in which hash 31 carries the ValidateFailed status. -/
def csC10 : CS :=
  { trie := 0, snapshot := none, tip := nodeD
    statuses := fun hh => if hh = 31 then statusValidateFailed else statusDataStored }

/-- C10 (witness): `claim_C10` at a node with a ValidateFailed parent and a
singleton detach list. -/
theorem claim_C10_witness :
    (reorganizeChain envC2 csC2 [nodeD] [] = none ↔ [nodeD] = ([] : List BNode)) ∧
    (getReorganizeNodes csC10 (fun _ => none) nodeC10).1 = [] ∧
    (getReorganizeNodes csC10 (fun _ => none) nodeC10).2.1 = [] ∧
    reorganizeChain envC2 csC2 (getReorganizeNodes csC10 (fun _ => none) nodeC10).1
      (getReorganizeNodes csC10 (fun _ => none) nodeC10).2.1 = none :=
  claim_C10 envC2 csC10 csC2 [nodeD] [] (fun _ => none) nodeC10 (by decide)

end ChainService
